import Mathlib

/-!
Shallow embedding of the Calendar Slicer Power BI visual
(repository Calendar_Slicer_PBI, file src/visual.ts) and verification of
its specification claims.

Modelling conventions:
* A JS timestamp is an `Int`: milliseconds since the Unix epoch, UTC.
  A day key, as produced by `Date.UTC(y, m, d)`, is a multiple of
  `dayMs = 86400000`.
* JS `Math.floor` division by a positive constant is Int division `/`
  (euclidean division, which floors for positive divisors).
* Calendar decomposition (`getUTCFullYear` and friends) is modelled with
  the standard proleptic-Gregorian civil-from-days algorithm, the same
  day numbering ECMAScript prescribes.
* `Date.UTC` applies the ECMAScript two-digit-year rule: an integer year
  argument in 0..99 is interpreted as 1900+year (`MakeFullYear`).  This is
  modelled in `dateUTC`, and the helper `atUTC` (which in the source
  re-enters `Date.UTC` with the fields of an existing `Date`) is modelled
  literally as that re-entry, so it inherits the rule.  The theorem
  `atUTC_floor` proves that for timestamps whose calendar year is outside
  0..99 the helper is plain flooring of the timestamp to UTC midnight;
  inside that corner it jumps by 1900 years exactly as the source does.
* JS `Set<number>` becomes `Finset Int`; `Map<number, ISelectionId>`
  becomes an association list from the key to the category row index that
  built the selection id (the id itself is opaque to the core).
-/

/-- Milliseconds in one UTC day. -/
def dayMs : Int := 86400000

/-- Days since 1970-01-01 for a civil date (proleptic Gregorian,
Howard Hinnant days_from_civil).  The month is 1..12 for ordinary input;
an out-of-range day number simply shifts the result, which is exactly the
rollover behaviour of the ECMAScript MakeDay operation. -/
def daysFromCivil (y m d : Int) : Int :=
  let yy := if m ≤ 2 then y - 1 else y
  let era := yy / 400
  let yoe := yy - era * 400
  let mp := (m + 9) % 12
  let doy := (153 * mp + 2) / 5 + (d - 1)
  let doe := yoe * 365 + yoe / 4 - yoe / 100 + doy
  era * 146097 + doe - 719468

/-- Civil date (year, month 1..12, day 1..31) of a day number
(Howard Hinnant civil_from_days). -/
def civilFromDays (z : Int) : Int × Int × Int :=
  let z2 := z + 719468
  let era := z2 / 146097
  let doe := z2 - era * 146097
  let yoe := (doe - doe / 1460 + doe / 36524 - doe / 146096) / 365
  let y := yoe + era * 400
  let doy := doe - (365 * yoe + yoe / 4 - yoe / 100)
  let mp := (5 * doy + 2) / 153
  let d := doy - (153 * mp + 2) / 5 + 1
  let m := if mp < 10 then mp + 3 else mp - 9
  (if m ≤ 2 then y + 1 else y, m, d)

/-- Whole days since the epoch of a timestamp (floor). -/
def epochDays (t : Int) : Int := t / dayMs

/-- JS Date.prototype.getUTCFullYear. -/
def getUTCFullYear (t : Int) : Int := (civilFromDays (epochDays t)).1

/-- JS Date.prototype.getUTCMonth (0-based month). -/
def getUTCMonth (t : Int) : Int := (civilFromDays (epochDays t)).2.1 - 1

/-- JS Date.prototype.getUTCDate (day of month). -/
def getUTCDate (t : Int) : Int := (civilFromDays (epochDays t)).2.2

/-- JS Date.prototype.getUTCDay: 0 = Sunday .. 6 = Saturday.
1970-01-01 was a Thursday (4); the euclidean remainder is never negative,
matching JS. -/
def getUTCDay (t : Int) : Int := (epochDays t + 4) % 7

/-- ECMAScript MakeFullYear: a year argument 0..99 means 1900+year. -/
def jsUtcYear (y : Int) : Int := if 0 ≤ y ∧ y ≤ 99 then 1900 + y else y

/-- JS Date.UTC(year, monthIndex, day) as a timestamp.  The month index is
normalised into the year by flooring (MakeDay), the day may be out of
range and rolls over, and the two-digit-year rule applies to the year
argument. -/
def dateUTC (y monthIdx d : Int) : Int :=
  daysFromCivil (jsUtcYear y + monthIdx / 12) (monthIdx % 12 + 1) d * dayMs

/-- Source atUTC(date) = Date.UTC(date.getUTCFullYear(), date.getUTCMonth(),
date.getUTCDate()): the civil coordinates of the timestamp fed back
through Date.UTC.  Because Date.UTC applies the two-digit-year rule, this
is plain flooring to UTC midnight only for timestamps whose calendar year
is outside 0..99 (theorem atUTC_floor); inside that range the result is
shifted forward by 1900 years, exactly as in the source. -/
def atUTC (t : Int) : Int :=
  dateUTC (getUTCFullYear t) (getUTCMonth t) (getUTCDate t)

/-- JS Math.ceil(a / 7) for an integer a. -/
def jsCeil7 (a : Int) : Int := -((-a) / 7)

/-- Day number of January 1 of a year. -/
def jan1Days (y : Int) : Int := daysFromCivil y 1 1

/-- Calendar year of a day number. -/
def yearOfDays (z : Int) : Int := (civilFromDays z).1

-- ---------------------------------------------------------------------
-- Calendar arithmetic lemmas: the civil conversions round-trip, and the
-- exact effect of the two-digit-year rule inside atUTC
-- ---------------------------------------------------------------------

/-- The components of civilFromDays, named and related by their defining
equations (the proof is reflexivity; the statement is the definition with
its let chain flattened). -/
theorem cfd_spec (z : Int) :
    ∃ era doe yoe doy mp : Int,
      era = (z + 719468) / 146097
      ∧ doe = z + 719468 - era * 146097
      ∧ yoe = (doe - doe / 1460 + doe / 36524 - doe / 146096) / 365
      ∧ doy = doe - (365 * yoe + yoe / 4 - yoe / 100)
      ∧ mp = (5 * doy + 2) / 153
      ∧ (civilFromDays z).2.2 = doy - (153 * mp + 2) / 5 + 1
      ∧ (civilFromDays z).2.1 = (if mp < 10 then mp + 3 else mp - 9)
      ∧ (civilFromDays z).1
        = (if (if mp < 10 then mp + 3 else mp - 9) ≤ 2
           then yoe + era * 400 + 1 else yoe + era * 400) := by
  exact ⟨_, _, _, _, _, rfl, rfl, rfl, rfl, rfl, rfl, rfl, rfl⟩

/-- The components of daysFromCivil, named and related by their defining
equations. -/
theorem dfc_spec (y m d : Int) :
    ∃ yy era yoe : Int,
      yy = (if m ≤ 2 then y - 1 else y)
      ∧ era = yy / 400
      ∧ yoe = yy - era * 400
      ∧ daysFromCivil y m d
        = era * 146097
          + (yoe * 365 + yoe / 4 - yoe / 100
             + ((153 * ((m + 9) % 12) + 2) / 5 + (d - 1)))
          - 719468 := by
  exact ⟨_, _, _, rfl, rfl, rfl, rfl⟩

set_option maxHeartbeats 1000000 in
/-- The year-of-era extracted by civilFromDays lies in 0..399. -/
theorem yoe_bounds (doe : Int) (h1 : 0 ≤ doe) (h2 : doe ≤ 146096) :
    0 ≤ (doe - doe / 1460 + doe / 36524 - doe / 146096) / 365
    ∧ (doe - doe / 1460 + doe / 36524 - doe / 146096) / 365 ≤ 399 := by
  omega

set_option maxHeartbeats 40000000 in
/-- The day-of-year extracted by civilFromDays lies in 0..365. -/
theorem doy_bounds (doe yoe : Int) (h1 : 0 ≤ doe) (h2 : doe ≤ 146096)
    (hy : yoe = (doe - doe / 1460 + doe / 36524 - doe / 146096) / 365) :
    0 ≤ doe - (365 * yoe + yoe / 4 - yoe / 100)
    ∧ doe - (365 * yoe + yoe / 4 - yoe / 100) ≤ 365 := by
  have hb1 : 0 ≤ yoe := by omega
  have hb2 : yoe ≤ 399 := by omega
  interval_cases yoe <;> omega

set_option maxHeartbeats 4000000 in
/-- Feeding the civil date of a day number back through daysFromCivil
returns the day number: the two conversions round-trip. -/
theorem civil_roundtrip (z : Int) :
    daysFromCivil (civilFromDays z).1 (civilFromDays z).2.1 (civilFromDays z).2.2 = z := by
  obtain ⟨era, doe, yoe, doy, mp, hera, hdoe, hyoe, hdoy, hmp, hD, hM, hY⟩ := cfd_spec z
  have hdoeB : 0 ≤ doe ∧ doe ≤ 146096 := by omega
  have hyoeB := yoe_bounds doe hdoeB.1 hdoeB.2
  have hdoyB := doy_bounds doe yoe hdoeB.1 hdoeB.2 hyoe
  have hmpB : 0 ≤ mp ∧ mp ≤ 11 := by omega
  by_cases h10 : mp < 10
  · simp only [if_pos h10] at hM hY
    rw [if_neg (by omega : ¬ mp + 3 ≤ 2)] at hY
    rw [hY, hM, hD]
    obtain ⟨yy, era2, yoe2, hyy, hera2, hyoe2, hdfc⟩ :=
      dfc_spec (yoe + era * 400) (mp + 3) (doy - (153 * mp + 2) / 5 + 1)
    rw [if_neg (by omega : ¬ mp + 3 ≤ 2)] at hyy
    have hyy2 : yy = yoe + era * 400 := hyy
    have hera2b : era2 = era := by omega
    have hyoe2b : yoe2 = yoe := by omega
    rw [hdfc, hera2b, hyoe2b]
    have hm12 : (mp + 3 + 9) % 12 = mp := by omega
    rw [hm12]
    omega
  · simp only [if_neg h10] at hM hY
    rw [if_pos (by omega : mp - 9 ≤ 2)] at hY
    rw [hY, hM, hD]
    obtain ⟨yy, era2, yoe2, hyy, hera2, hyoe2, hdfc⟩ :=
      dfc_spec (yoe + era * 400 + 1) (mp - 9) (doy - (153 * mp + 2) / 5 + 1)
    rw [if_pos (by omega : mp - 9 ≤ 2)] at hyy
    have hyy2 : yy = yoe + era * 400 := by omega
    have hera2b : era2 = era := by omega
    have hyoe2b : yoe2 = yoe := by omega
    rw [hdfc, hera2b, hyoe2b]
    have hm12 : (mp - 9 + 9) % 12 = mp := by omega
    rw [hm12]
    omega

set_option maxHeartbeats 4000000 in
/-- The month component of civilFromDays lies in 1..12. -/
theorem cfd_month_bounds (z : Int) :
    1 ≤ (civilFromDays z).2.1 ∧ (civilFromDays z).2.1 ≤ 12 := by
  obtain ⟨era, doe, yoe, doy, mp, hera, hdoe, hyoe, hdoy, hmp, hD, hM, hY⟩ := cfd_spec z
  have hdoeB : 0 ≤ doe ∧ doe ≤ 146096 := by omega
  have hdoyB := doy_bounds doe yoe hdoeB.1 hdoeB.2 hyoe
  rw [hM]
  split_ifs <;> omega

/-- Moving a civil date 1900 years forward never decreases its day
number. -/
theorem dfc_mono1900 (y m d : Int) :
    daysFromCivil y m d ≤ daysFromCivil (1900 + y) m d := by
  obtain ⟨yy, era, yoe, hyy, hera, hyoe, h1⟩ := dfc_spec y m d
  obtain ⟨yy2, era2, yoe2, hyy2, hera2, hyoe2, h2⟩ := dfc_spec (1900 + y) m d
  rw [h1, h2]
  have hdy : yy2 = yy + 1900 := by split_ifs at hyy hyy2 <;> omega
  omega

/-- Date.UTC with the day argument advanced by one moves the timestamp
forward by exactly one day, in every year (the day enters daysFromCivil
linearly, below any two-digit-year adjustment).  This is why the range
walk of handleClickDate steps by dayMs. -/
theorem dateUTC_succ_day (y mi d : Int) :
    dateUTC y mi (d + 1) = dateUTC y mi d + dayMs := by
  unfold dateUTC
  obtain ⟨yy, era, yoe, hyy, hera, hyoe, h1⟩ :=
    dfc_spec (jsUtcYear y + mi / 12) (mi % 12 + 1) (d + 1)
  obtain ⟨yy2, era2, yoe2, hyy2, hera2, hyoe2, h2⟩ :=
    dfc_spec (jsUtcYear y + mi / 12) (mi % 12 + 1) d
  rw [h1, h2]
  have hyyeq : yy2 = yy := by rw [hyy, hyy2]
  have heraeq : era2 = era := by omega
  have hyoeeq : yoe2 = yoe := by omega
  rw [heraeq, hyoeeq]
  unfold dayMs
  omega

set_option maxHeartbeats 1000000 in
/-- Outside calendar years 0..99 the source atUTC is plain flooring of
the timestamp to UTC midnight. -/
theorem atUTC_floor (t : Int)
    (h : getUTCFullYear t < 0 ∨ 100 ≤ getUTCFullYear t) :
    atUTC t = dayMs * (t / dayMs) := by
  have hm := cfd_month_bounds (epochDays t)
  have hrt := civil_roundtrip (epochDays t)
  unfold getUTCFullYear at h
  unfold atUTC dateUTC getUTCFullYear getUTCMonth getUTCDate jsUtcYear
  rw [if_neg (show ¬ (0 ≤ (civilFromDays (epochDays t)).1
      ∧ (civilFromDays (epochDays t)).1 ≤ 99) by omega)]
  have h12a : ((civilFromDays (epochDays t)).2.1 - 1) / 12 = 0 := by omega
  have h12b : ((civilFromDays (epochDays t)).2.1 - 1) % 12
      = (civilFromDays (epochDays t)).2.1 - 1 := by omega
  rw [h12a, h12b, add_zero]
  have hmm : (civilFromDays (epochDays t)).2.1 - 1 + 1
      = (civilFromDays (epochDays t)).2.1 := by omega
  rw [hmm, hrt]
  unfold epochDays
  ring

set_option maxHeartbeats 4000000 in
/-- Every day number on or after January 1 of year 100 has calendar year
at least 100. -/
theorem yearOfDays_ge_100 (z : Int) (h : jan1Days 100 ≤ z) :
    100 ≤ yearOfDays z := by
  have hj : jan1Days 100 = -683003 := by decide
  rw [hj] at h
  obtain ⟨era, doe, yoe, doy, mp, hera, hdoe, hyoe, hdoy, hmp, hD, hM, hY⟩ := cfd_spec z
  have hdoeB : 0 ≤ doe ∧ doe ≤ 146096 := by omega
  have hyoeB := yoe_bounds doe hdoeB.1 hdoeB.2
  have hdoyB := doy_bounds doe yoe hdoeB.1 hdoeB.2 hyoe
  unfold yearOfDays
  rw [hY]
  by_cases h10 : mp < 10
  · rw [if_neg (by rw [if_pos h10]; omega)]
    omega
  · rw [if_pos (by rw [if_neg h10]; omega)]
    omega

/-- atUTC fixes every day key (multiple of dayMs) on or after the start
of year 100: such keys are out of reach of the two-digit-year rule. -/
theorem atUTC_fix (c : Int) (hc : dayMs ∣ c) (hcL : jan1Days 100 * dayMs ≤ c) :
    atUTC c = c := by
  have h100 : 100 ≤ getUTCFullYear c := by
    have hz : jan1Days 100 ≤ epochDays c := by
      unfold epochDays
      unfold dayMs at *
      omega
    exact yearOfDays_ge_100 (epochDays c) hz
  rw [atUTC_floor c (Or.inr h100)]
  exact Int.mul_ediv_cancel' hc

set_option maxHeartbeats 1000000 in
/-- atUTC never moves a timestamp back by a full day or more: outside the
two-digit-year corner it floors (losing less than one day), inside it the
1900-year shift moves the result forward.  This bounds the iteration
count of the range walk. -/
theorem atUTC_lower (t : Int) : t - dayMs < atUTC t := by
  by_cases hq : 0 ≤ getUTCFullYear t ∧ getUTCFullYear t ≤ 99
  · have hm := cfd_month_bounds (epochDays t)
    have hrt := civil_roundtrip (epochDays t)
    have hmono := dfc_mono1900 (civilFromDays (epochDays t)).1
      (civilFromDays (epochDays t)).2.1 (civilFromDays (epochDays t)).2.2
    unfold getUTCFullYear at hq
    unfold atUTC dateUTC getUTCFullYear getUTCMonth getUTCDate jsUtcYear
    rw [if_pos hq]
    have h12a : ((civilFromDays (epochDays t)).2.1 - 1) / 12 = 0 := by omega
    have h12b : ((civilFromDays (epochDays t)).2.1 - 1) % 12
        = (civilFromDays (epochDays t)).2.1 - 1 := by omega
    rw [h12a, h12b, add_zero]
    have hmm : (civilFromDays (epochDays t)).2.1 - 1 + 1
        = (civilFromDays (epochDays t)).2.1 := by omega
    rw [hmm]
    unfold epochDays at *
    unfold dayMs at *
    omega
  · have h : getUTCFullYear t < 0 ∨ 100 ≤ getUTCFullYear t := by omega
    rw [atUTC_floor t h]
    unfold dayMs
    omega

-- ---------------------------------------------------------------------
-- parseISODate (source lines 175-181)
-- ---------------------------------------------------------------------

/-- Whitespace as matched by the JS regex class backslash-s: tab through
carriage return (9..13), space (32), no-break space (160), ogham space
mark (5760), the en-quad..hair-space range (8192..8202), line and
paragraph separators (8232, 8233), narrow no-break space (8239), medium
mathematical space (8287), ideographic space (12288), and the byte order
mark (65279). -/
def isJsSpace (c : Char) : Bool :=
  c.toNat = 9 || c.toNat = 10 || c.toNat = 11 || c.toNat = 12 ||
  c.toNat = 13 || c.toNat = 32 || c.toNat = 160 || c.toNat = 5760 ||
  (8192 ≤ c.toNat && c.toNat ≤ 8202) ||
  c.toNat = 8232 || c.toNat = 8233 || c.toNat = 8239 ||
  c.toNat = 8287 || c.toNat = 12288 || c.toNat = 65279

/-- A decimal digit as matched by the JS regex class backslash-d. -/
def isDigitChar (c : Char) : Bool := 48 ≤ c.toNat && c.toNat ≤ 57

/-- Numeric value of a list of decimal digit characters (parseInt base 10
on the captured group). -/
def digitsToNat (cs : List Char) : Nat :=
  cs.foldl (fun a c => 10 * a + (c.toNat - 48)) 0

/-- Matcher for the source regex: optional whitespace, four digits,
hyphen, two digits, hyphen, two digits, optional whitespace, end. -/
def matchISO (cs : List Char) : Option (Nat × Nat × Nat) :=
  match cs.dropWhile isJsSpace with
  | y1 :: y2 :: y3 :: y4 :: s1 :: m1 :: m2 :: s2 :: d1 :: d2 :: rest =>
    if (s1 == '-') && (s2 == '-')
        && ([y1, y2, y3, y4, m1, m2, d1, d2].all isDigitChar)
        && rest.all isJsSpace then
      some (digitsToNat [y1, y2, y3, y4], digitsToNat [m1, m2], digitsToNat [d1, d2])
    else none
  | _ => none

/-- Source parseISODate.  Returns the timestamp of the parsed Date (the
source returns the Date object; it is always a UTC midnight).  The falsy
check rejects a missing or empty string; the isNaN check corresponds to
the ECMAScript time-value range limit. -/
def parseISODate (s : Option String) : Option Int :=
  match s with
  | none => none
  | some str =>
    if str = "" then none
    else
      match matchISO str.toList with
      | none => none
      | some (y, mo, dd) =>
        let t := dateUTC (y : Int) ((mo : Int) - 1) (dd : Int)
        if t.natAbs ≤ 8640000000000000 then some t else none

-- ---------------------------------------------------------------------
-- Settings and state (source lines 11-100)
-- ---------------------------------------------------------------------

inductive StartOfWeek
  | sunday
  | monday
deriving DecidableEq, Repr

structure CalendarSettings where
  startOfWeek : StartOfWeek
  showWeekNumbers : Bool
  otherMonthFade : Bool
  showDOWHeader : Bool
deriving DecidableEq, Repr

structure SelectionSettings where
  multiSelect : Bool
  rangeSelect : Bool
  stickySelection : Bool
deriving DecidableEq, Repr

structure DateRangeSettings where
  respectDataRange : Bool
  minDate : Option String
  maxDate : Option String
deriving DecidableEq, Repr

/-- Filter target derived from the bound column qualified name. -/
structure FilterTarget where
  table : String
  column : String
deriving DecidableEq, Repr

/-- The mutable fields of the Visual class that the selection core reads
and writes (header and item styling fields are presentation-only and
omitted). -/
structure VState where
  selectedKeys : Finset Int
  lastClickedKey : Option Int
  settings : CalendarSettings
  selectionSettings : SelectionSettings
  dateRange : DateRangeSettings
  identitiesByKey : List (Int × Nat)
  selectableKeys : Finset Int
  minDataKey : Option Int
  maxDataKey : Option Int
  filterTarget : Option FilterTarget
  cursorYear : Int
  cursorMonth : Int
deriving DecidableEq

/-- powerbi.FilterAction of the visuals API: merge or remove. -/
inductive FilterAction
  | merge
  | remove
deriving DecidableEq, Repr

/-- The JSON basic filter built by applyFilterForKeys.  The values array
holds the selected day keys (the source converts each back to a Date);
the JS Set iteration order is unspecified, so the value collection is
modelled as the underlying finite set. -/
structure BasicFilter where
  schema : String
  target : FilterTarget
  operator : String
  values : Finset Int
deriving DecidableEq

/-- One call to host.applyJsonFilter: a filter payload (null when
removing) and the requested action. -/
structure HostCall where
  filter : Option BasicFilter
  action : FilterAction
deriving DecidableEq

-- ---------------------------------------------------------------------
-- Range walk (source lines 499-507)
-- ---------------------------------------------------------------------

/-- Fuel-bounded translation of the while loop in the range branch of
handleClickDate: starting from the timestamp cursor, collect atUTC of
every day up to atUTC of the end timestamp that is present in the
availability set.  The cursor steps to Date.UTC(year, month, day+1) of
its current date, which equals atUTC cursor + dayMs in every year by
dateUTC_succ_day.  The fuel argument only bounds the iteration count;
walkKeys below supplies enough fuel for the loop to run to its guard
(atUTC_lower shows every iteration strictly shrinks the distance to the
end), and walkKeys_loop_eq with walkKeys_unique prove that walkKeys is
the unique function satisfying the loop recurrence of the source. -/
def walkAux (fin : Int) (avail : Finset Int) : Nat → Int → List Int
  | 0, _ => []
  | fuel + 1, cursor =>
    if atUTC cursor ≤ atUTC fin then
      (if atUTC cursor ∈ avail then [atUTC cursor] else []) ++
        walkAux fin avail fuel (atUTC cursor + dayMs)
    else []

/-- The while loop of the range branch: walkAux with enough fuel to reach
the loop guard from the starting cursor. -/
def walkKeys (cursor fin : Int) (avail : Finset Int) : List Int :=
  walkAux fin avail ((atUTC fin + dayMs - cursor).toNat + 1) cursor

-- ---------------------------------------------------------------------
-- Selection and filtering (source lines 490-566)
-- ---------------------------------------------------------------------

/-- Sorted enumeration of a multiset of integers.  Insertion sort is
structurally recursive, so this evaluates inside the kernel; sorting is
invariant under permutation, which makes the lift well defined. -/
def multisetToSortedList (m : Multiset Int) : List Int :=
  Quot.lift (List.insertionSort (fun a b => a ≤ b))
    (fun l1 l2 h =>
      List.eq_of_perm_of_sorted
        (((List.perm_insertionSort _ l1).trans h).trans
          (List.perm_insertionSort _ l2).symm)
        (List.sorted_insertionSort _ l1) (List.sorted_insertionSort _ l2))
    m

/-- Source setToArray: enumerates a JS Set.  The iteration order of the
set is irrelevant to every consumer (the elements are folded back into a
set), so the sorted enumeration is used. -/
def setToArray (s : Finset Int) : List Int := multisetToSortedList s.val

/-- Source applyFilterForKeys.  Returns the updated state and the
host.applyJsonFilter call, if any.  With no filter target it returns
immediately (in particular it does not touch selectedKeys).  Otherwise,
additive=false first empties selectedKeys; the given keys are added; and
a basic In filter holding the resulting selection is applied with
FilterAction.merge (the source always passes merge). -/
def applyFilterForKeys (st : VState) (keys : List Int) (additive : Bool) :
    VState × Option HostCall :=
  match st.filterTarget with
  | none => (st, none)
  | some tgt =>
    let base := if additive then st.selectedKeys else (∅ : Finset Int)
    let sel := keys.foldl (fun s k => insert k s) base
    let st1 := { st with selectedKeys := sel }
    (st1, some
      { filter := some
          { schema := "http://powerbi.com/product/schema#basic"
            target := tgt
            operator := "In"
            values := sel }
        action := FilterAction.merge })

/-- Source handleClickDate.  ctrl and mta are ev.ctrlKey and ev.metaKey,
shift is ev.shiftKey.  Returns the updated state and the host calls made
(render calls are presentation-only and omitted). -/
def handleClickDate (st : VState) (key : Int) (ctrl mta shift : Bool) :
    VState × List HostCall :=
  let multiKey := st.selectionSettings.multiSelect && (ctrl || mta)
  let rangeKey := st.selectionSettings.rangeSelect && shift &&
    st.lastClickedKey.isSome
  if rangeKey then
    let a := st.lastClickedKey.getD 0
    let start := if key < a then key else a
    let fin := if key < a then a else key
    let keys := walkKeys start fin st.selectableKeys
    let r := applyFilterForKeys st keys true
    ({ r.1 with lastClickedKey := some key }, r.2.toList)
  else if multiKey then
    let st1 :=
      if key ∈ st.selectedKeys then
        { st with selectedKeys := st.selectedKeys.erase key }
      else
        { st with selectedKeys := insert key st.selectedKeys }
    let r := applyFilterForKeys st1 (setToArray st1.selectedKeys) true
    ({ r.1 with lastClickedKey := some key }, r.2.toList)
  else
    let st1 := { st with selectedKeys := {key} }
    let r := applyFilterForKeys st1 [key] false
    ({ r.1 with lastClickedKey := some key }, r.2.toList)

/-- Source clearSelection: empties the selection, resets the anchor, and
when a filter target exists asks the host to remove the filter (null
payload, FilterAction.remove). -/
def clearSelection (st : VState) : VState × Option HostCall :=
  let st1 := { st with selectedKeys := (∅ : Finset Int), lastClickedKey := none }
  match st.filterTarget with
  | some _ => (st1, some { filter := none, action := FilterAction.remove })
  | none => (st1, none)

-- ---------------------------------------------------------------------
-- loadData (source lines 187-237)
-- ---------------------------------------------------------------------

/-- A raw category value as seen by loadData: null, a Date carrying a
timestamp, or any other value together with the result of the generic
best-effort parse new Date(String(v)) the source falls back to (none when
that parse yields an invalid date). -/
inductive RawValue
  | vnull
  | vdate (ms : Int)
  | vother (s : String) (generic : Option Int)
deriving DecidableEq, Repr

/-- The categorical data of one update: the bound column qualified name
and the category values.  A missing value models an update with no
categorical categories. -/
structure DataInput where
  queryName : Option String
  values : List RawValue
deriving DecidableEq, Repr

/-- Index of the last dot of a string, -1 if absent (JS lastIndexOf). -/
def lastIndexOfDot (s : String) : Int :=
  s.toList.enum.foldl (fun acc p => if p.2 = '.' then (p.1 : Int) else acc) (-1)

/-- Filter target derivation from the query name (source lines 204-207):
table is the part before the last dot, column after it; none when the
value is not a string or the last dot is at position 0 or absent. -/
def deriveFilterTarget (qn : Option String) : Option FilterTarget :=
  match qn with
  | some q =>
    let dot := lastIndexOfDot q
    if 0 < dot then
      some { table := q.take dot.toNat, column := q.drop (dot.toNat + 1) }
    else none
  | none => none

/-- Day key of one raw value (source lines 215-228), or none when the row
is skipped: null rows, and rows whose value neither ISO-parses nor
generic-parses.  A Date value is normalised to its UTC day; other values
go through parseISODate on their string form, then the generic parse. -/
def keyOfValue (v : RawValue) : Option Int :=
  match v with
  | RawValue.vnull => none
  | RawValue.vdate ms => some (atUTC (atUTC ms))
  | RawValue.vother s generic =>
    match parseISODate (some s) with
    | some iso => some (atUTC iso)
    | none =>
      match generic with
      | some t => some (atUTC t)
      | none => none

/-- JS Map.set: replace the value at the key or append. -/
def mapSet (m : List (Int × Nat)) (k : Int) (v : Nat) : List (Int × Nat) :=
  match m with
  | [] => [(k, v)]
  | (k0, v0) :: rest =>
    if k0 = k then (k, v) :: rest else (k0, v0) :: mapSet rest k v

/-- The four fields the loadData loop fills. -/
structure IngestAcc where
  identitiesByKey : List (Int × Nat)
  selectableKeys : Finset Int
  minDataKey : Option Int
  maxDataKey : Option Int
deriving DecidableEq

/-- One iteration of the loadData loop at row index i: skip the row or
record its key, selection identity (modelled by the row index) and the
running min and max. -/
def ingestStep (acc : IngestAcc) (iv : Nat × RawValue) : IngestAcc :=
  match keyOfValue iv.2 with
  | none => acc
  | some key =>
    { identitiesByKey := mapSet acc.identitiesByKey key iv.1
      selectableKeys := insert key acc.selectableKeys
      minDataKey := some (match acc.minDataKey with
        | none => key
        | some mn => if key < mn then key else mn)
      maxDataKey := some (match acc.maxDataKey with
        | none => key
        | some mx => if mx < key then key else mx) }

/-- The loadData loop over all rows. -/
def ingestValues (values : List RawValue) : IngestAcc :=
  values.enum.foldl ingestStep
    { identitiesByKey := [], selectableKeys := (∅ : Finset Int),
      minDataKey := none, maxDataKey := none }

/-- Source loadData.  The source first clears identitiesByKey,
selectableKeys, minDataKey, maxDataKey and filterTarget and then refills
them, which is expressed here by building the new values outright.  With
no categorical data the cursor is reset to today (passed in as todayY and
todayM, the values the source reads from new Date()).  Note that
selectedKeys and lastClickedKey are never touched. -/
def loadData (st : VState) (todayY todayM : Int) (dv : Option DataInput) :
    VState :=
  match dv with
  | none =>
    { st with identitiesByKey := [], selectableKeys := (∅ : Finset Int),
              minDataKey := none, maxDataKey := none, filterTarget := none,
              cursorYear := todayY, cursorMonth := todayM }
  | some data =>
    let acc := ingestValues data.values
    { st with identitiesByKey := acc.identitiesByKey,
              selectableKeys := acc.selectableKeys,
              minDataKey := acc.minDataKey,
              maxDataKey := acc.maxDataKey,
              filterTarget := deriveFilterTarget data.queryName }

-- ---------------------------------------------------------------------
-- Day grid rendering (source lines 347-454)
-- ---------------------------------------------------------------------

/-- Source getStartOfWeekOffset. -/
def getStartOfWeekOffset (startOfWeek : StartOfWeek) (dow0Sunday : Int) : Int :=
  match startOfWeek with
  | StartOfWeek.monday => if dow0Sunday = 0 then 6 else dow0Sunday - 1
  | StartOfWeek.sunday => dow0Sunday

/-- One rendered day cell: its day key, whether it belongs to the cursor
month, whether it is a data date (this single flag drives both the
selectable CSS class and the attachment of the click handler), and
whether it is currently selected. -/
structure DayCell where
  key : Int
  inMonth : Bool
  isDataDate : Bool
  selected : Bool
deriving DecidableEq, Repr

/-- The 42 day cells produced by renderDayGrid (week-number and
day-of-week header cells are presentation-only and omitted).  The min and
max clamp values are computed exactly as in the source (lines 367-380)
but, as the source comments itself, are not used for selectability, which
is strictly selectableKeys membership (line 428). -/
def dayGridCells (st : VState) : List DayCell :=
  let y := st.cursorYear
  let m := st.cursorMonth
  let first := dateUTC y m 1
  let firstDOW := getUTCDay first
  let offset := getStartOfWeekOffset st.settings.startOfWeek firstDOW
  let cfgMin := parseISODate st.dateRange.minDate
  let cfgMax := parseISODate st.dateRange.maxDate
  let cfgMinKey := cfgMin.map atUTC
  let cfgMaxKey := cfgMax.map atUTC
  let minKey : Option Int :=
    if !st.dateRange.respectDataRange then cfgMinKey
    else match cfgMinKey, st.minDataKey with
      | some c, some mk => some (if mk ≤ c then c else mk)
      | some c, none => some c
      | none, mk => mk
  let maxKey : Option Int :=
    if !st.dateRange.respectDataRange then cfgMaxKey
    else match cfgMaxKey, st.maxDataKey with
      | some c, some mk => some (if c ≤ mk then c else mk)
      | some c, none => some c
      | none, mk => mk
  let firstCellDate := dateUTC y m (1 - offset)
  (List.range 42).map (fun i =>
    let dt := dateUTC (getUTCFullYear firstCellDate)
      (getUTCMonth firstCellDate) (getUTCDate firstCellDate + (i : Int))
    let k := atUTC dt
    { key := k
      inMonth := decide (getUTCMonth dt = m)
      isDataDate := decide (k ∈ st.selectableKeys)
      selected := decide (k ∈ st.selectedKeys) })

-- ---------------------------------------------------------------------
-- getISOWeek (source lines 352-359)
-- ---------------------------------------------------------------------

/-- Source getISOWeek.  The date is renormalised through Date.UTC from
its civil fields (atUTC: flooring to UTC midnight outside years 0..99,
a 1900-year jump inside); day is getUTCDay() || 7;
setUTCDate(getUTCDate() + 4 - day) moves to the Thursday of the
Monday-based week, which on a midnight date shifts the timestamp by whole
days (ECMAScript setUTCDate rebuilds the time value from the real year
and month, with no two-digit-year rule); the year start is
Date.UTC(thursdayYear, 0, 1) (two-digit-year rule applies); diffDays is
the floored day difference plus one and the result is
Math.ceil(diffDays / 7). -/
def getISOWeek (t : Int) : Int :=
  let date := atUTC t
  let d0 := getUTCDay date
  let day := if d0 = 0 then 7 else d0
  let date2 := date + (4 - day) * dayMs
  let yearStart := dateUTC (getUTCFullYear date2) 0 1
  let diffDays := (date2 - yearStart) / dayMs + 1
  jsCeil7 diffDays

-- ---------------------------------------------------------------------
-- Update operations and reachability
-- ---------------------------------------------------------------------

/-- The externally triggered operations of the selection core: a click on
a day cell (with modifier flags), the clear button, and a dataset update. -/
inductive Op
  | click (key : Int) (ctrl mta shift : Bool)
  | clear
  | load (todayY todayM : Int) (dv : Option DataInput)
deriving DecidableEq, Repr

/-- Apply one operation: the new state and the host calls it makes. -/
def applyOp (st : VState) (op : Op) : VState × List HostCall :=
  match op with
  | Op.click key ctrl mta shift => handleClickDate st key ctrl mta shift
  | Op.clear =>
    let r := clearSelection st
    (r.1, r.2.toList)
  | Op.load ty tm dv => (loadData st ty tm dv, [])

/-- Run a sequence of operations. -/
def runOps (st : VState) (ops : List Op) : VState :=
  ops.foldl (fun s op => (applyOp s op).1) st

/-- Decidable guard for operation sequences that contain no dataset
rebuild and whose every click lands on a key that is selectable in the
state in which the click happens. -/
def goodRun (st : VState) : List Op → Bool
  | [] => true
  | op :: rest =>
    match op with
    | Op.click k _ _ _ =>
      decide (k ∈ st.selectableKeys) && goodRun (applyOp st op).1 rest
    | Op.clear => goodRun (applyOp st Op.clear).1 rest
    | Op.load _ _ _ => false

-- ---------------------------------------------------------------------
-- Specification-side definition for the ISO week claim
-- ---------------------------------------------------------------------

/-- Day of week of a day number, 0 = Sunday .. 6 = Saturday. -/
def dowOfDays (n : Int) : Int := (n + 4) % 7

/-- First Thursday on or after a given day number. -/
def nextThursday (z : Int) : Int :=
  if dowOfDays z = 4 then z
  else if dowOfDays (z + 1) = 4 then z + 1
  else if dowOfDays (z + 2) = 4 then z + 2
  else if dowOfDays (z + 3) = 4 then z + 3
  else if dowOfDays (z + 4) = 4 then z + 4
  else if dowOfDays (z + 5) = 4 then z + 5
  else z + 6

/-- Thursday of the Monday-based week containing a day: the unique
Thursday within three days of it. -/
def weekThursday (n : Int) : Int := nextThursday (n - 3)

/-- Modelled from the spec: the ISO-8601 week number of a day (spec 4.3:
the Thursday of the week of the key determines the week year; week 1 is
the week containing the first Thursday of that year).  Weeks are seven
days apart, so the week number is one more than the number of whole weeks
between the first Thursday of the week year and the Thursday of the given
week. -/
def isoWeekSpec (n : Int) : Int :=
  let t := weekThursday n
  1 + (t - nextThursday (jan1Days (yearOfDays t))) / 7

-- ---------------------------------------------------------------------
-- Helper lemmas
-- ---------------------------------------------------------------------

theorem foldl_insert_eq_union (l : List Int) (s : Finset Int) :
    l.foldl (fun acc k => insert k acc) s = s ∪ l.toFinset := by
  induction l generalizing s with
  | nil => simp
  | cons a l ih =>
    simp only [List.foldl_cons, ih, List.toFinset_cons, Finset.insert_union,
      Finset.union_insert]

theorem weekThursday_eq (n : Int) :
    weekThursday n = n + 4 - (if (n + 4) % 7 = 0 then 7 else (n + 4) % 7) := by
  unfold weekThursday nextThursday dowOfDays
  split_ifs <;> omega

theorem ceil7_week (t s : Int) (ht : (t + 4) % 7 = 4) :
    jsCeil7 (t - s + 1) = 1 + (t - nextThursday s) / 7 := by
  unfold jsCeil7 nextThursday dowOfDays
  split_ifs <;> omega

theorem walkAux_congr (f : Int) (av : Finset Int) :
    ∀ (n m : Nat) (c : Int),
      (atUTC f + dayMs - c).toNat < n → (atUTC f + dayMs - c).toNat < m →
      walkAux f av n c = walkAux f av m c := by
  intro n
  induction n with
  | zero => intro m c hn _; exact absurd hn (Nat.not_lt_zero _)
  | succ n ih =>
    intro m c hn hm
    match m with
    | 0 => exact absurd hm (Nat.not_lt_zero _)
    | m + 1 =>
      simp only [walkAux]
      by_cases hg : atUTC c ≤ atUTC f
      · rw [if_pos hg, if_pos hg]
        have hl := atUTC_lower c
        congr 1
        apply ih m (atUTC c + dayMs) <;>
          simp only [dayMs] at * <;> omega
      · rw [if_neg hg, if_neg hg]

/-- walkKeys satisfies the defining recurrence of the source while loop:
if the cursor day is on or before the end day, emit it when available and
continue from the next day, otherwise stop. -/
theorem walkKeys_loop_eq (c f : Int) (av : Finset Int) :
    walkKeys c f av
      = if atUTC c ≤ atUTC f then
          (if atUTC c ∈ av then [atUTC c] else []) ++ walkKeys (atUTC c + dayMs) f av
        else [] := by
  show walkAux f av ((atUTC f + dayMs - c).toNat + 1) c
    = if atUTC c ≤ atUTC f then
        (if atUTC c ∈ av then [atUTC c] else []) ++ walkKeys (atUTC c + dayMs) f av
      else []
  simp only [walkAux]
  by_cases hg : atUTC c ≤ atUTC f
  · rw [if_pos hg, if_pos hg]
    have hl := atUTC_lower c
    rw [show walkKeys (atUTC c + dayMs) f av
      = walkAux f av ((atUTC f + dayMs - (atUTC c + dayMs)).toNat + 1)
          (atUTC c + dayMs) from rfl]
    congr 1
    apply walkAux_congr <;>
      simp only [dayMs] at * <;> omega
  · rw [if_neg hg, if_neg hg]

/-- Any function satisfying the loop recurrence agrees with walkKeys
everywhere: together with walkKeys_loop_eq this makes walkKeys the unique
total solution of the source loop. -/
theorem walkKeys_unique (f : Int) (av : Finset Int) (g : Int → List Int)
    (hg : ∀ c, g c
      = if atUTC c ≤ atUTC f then
          (if atUTC c ∈ av then [atUTC c] else []) ++ g (atUTC c + dayMs)
        else []) :
    ∀ c, g c = walkKeys c f av := by
  have H : ∀ (n : Nat) (c : Int), (atUTC f + dayMs - c).toNat ≤ n →
      g c = walkKeys c f av := by
    intro n
    induction n with
    | zero =>
      intro c hc
      rw [hg c, walkKeys_loop_eq]
      by_cases hgd : atUTC c ≤ atUTC f
      · exfalso
        have hl := atUTC_lower c
        simp only [dayMs] at *
        omega
      · rw [if_neg hgd, if_neg hgd]
    | succ n ih =>
      intro c hc
      rw [hg c, walkKeys_loop_eq]
      by_cases hgd : atUTC c ≤ atUTC f
      · rw [if_pos hgd, if_pos hgd]
        congr 1
        apply ih (atUTC c + dayMs)
        have hl := atUTC_lower c
        simp only [dayMs] at *
        omega
      · rw [if_neg hgd, if_neg hgd]
  intro c
  exact H ((atUTC f + dayMs - c).toNat) c (le_refl _)

theorem walkKeys_subset (c f : Int) (av : Finset Int) :
    ∀ x ∈ walkKeys c f av, x ∈ av := by
  unfold walkKeys
  generalize ((atUTC f + dayMs - c).toNat + 1) = fuel
  induction fuel generalizing c with
  | zero => intro x hx; simp [walkAux] at hx
  | succ n ih =>
    intro x hx
    simp only [walkAux] at hx
    by_cases hg : atUTC c ≤ atUTC f
    · rw [if_pos hg, List.mem_append] at hx
      rcases hx with hx | hx
      · by_cases hmem : atUTC c ∈ av
        · rw [if_pos hmem, List.mem_singleton] at hx
          rw [hx]
          exact hmem
        · rw [if_neg hmem] at hx
          cases hx
      · exact ih (atUTC c + dayMs) x hx
    · rw [if_neg hg] at hx
      cases hx

theorem mem_walkAux (f x : Int) (av : Finset Int) (hff : atUTC f = f) :
    ∀ (fuel : Nat) (c : Int), (atUTC f + dayMs - c).toNat < fuel →
      dayMs ∣ c → jan1Days 100 * dayMs ≤ c →
      (x ∈ walkAux f av fuel c ↔ x ∈ av ∧ c ≤ x ∧ x ≤ f ∧ dayMs ∣ x) := by
  intro fuel
  induction fuel with
  | zero => intro c h _ _; exact absurd h (Nat.not_lt_zero _)
  | succ n ih =>
    intro c h hc hcL
    have hfix : atUTC c = c := atUTC_fix c hc hcL
    simp only [walkAux, hfix, hff]
    rw [hff] at h
    by_cases hg : c ≤ f
    · rw [if_pos hg, List.mem_append]
      have hmeas : (atUTC f + dayMs - (c + dayMs)).toNat < n := by
        rw [hff]
        simp only [dayMs] at *
        omega
      have hbnd : jan1Days 100 * dayMs ≤ c + dayMs := by
        simp only [dayMs] at *
        omega
      have hstep : x ∈ walkAux f av n (c + dayMs)
          ↔ x ∈ av ∧ c + dayMs ≤ x ∧ x ≤ f ∧ dayMs ∣ x :=
        ih (c + dayMs) hmeas (Dvd.dvd.add hc dvd_rfl) hbnd
      rw [hstep]
      constructor
      · rintro (hx | ⟨h1, h2, h3, h4⟩)
        · by_cases hmem : c ∈ av
          · rw [if_pos hmem, List.mem_singleton] at hx
            subst hx
            exact ⟨hmem, le_refl _, hg, hc⟩
          · rw [if_neg hmem] at hx
            cases hx
        · refine ⟨h1, ?_, h3, h4⟩
          simp only [dayMs] at *
          omega
      · rintro ⟨h1, h2, h3, h4⟩
        by_cases hxc : x = c
        · subst hxc
          left
          rw [if_pos h1]
          exact List.mem_singleton_self x
        · right
          refine ⟨h1, ?_, h3, h4⟩
          rcases hc with ⟨a, ha⟩
          rcases h4 with ⟨b, hb⟩
          simp only [dayMs] at *
          omega
    · rw [if_neg hg]
      simp only [List.not_mem_nil, false_iff]
      rintro ⟨_, h2, h3, _⟩
      exact hg (le_trans h2 h3)

/-- Membership in the range walk, for day keys out of reach of the
two-digit-year rule (at or after January 1 of year 100): exactly the
available multiples of dayMs inside the closed interval. -/
theorem mem_walkKeys (s f x : Int) (av : Finset Int)
    (hs : dayMs ∣ s) (hf : dayMs ∣ f)
    (hsL : jan1Days 100 * dayMs ≤ s) (hfL : jan1Days 100 * dayMs ≤ f) :
    x ∈ walkKeys s f av ↔ x ∈ av ∧ s ≤ x ∧ x ≤ f ∧ dayMs ∣ x := by
  unfold walkKeys
  exact mem_walkAux f x av (atUTC_fix f hf hfL) _ s (Nat.lt_succ_self _) hs hsL

theorem applyFilter_none (st : VState) (keys : List Int) (additive : Bool)
    (h : st.filterTarget = none) :
    applyFilterForKeys st keys additive = (st, none) := by
  unfold applyFilterForKeys
  rw [h]

theorem applyFilter_some_selectedKeys (st : VState) (keys : List Int)
    (additive : Bool) (tgt : FilterTarget) (h : st.filterTarget = some tgt) :
    (applyFilterForKeys st keys additive).1.selectedKeys
      = (if additive then st.selectedKeys else (∅ : Finset Int)) ∪ keys.toFinset := by
  unfold applyFilterForKeys
  rw [h]
  simp [foldl_insert_eq_union]

theorem applyFilter_selectableKeys (st : VState) (keys : List Int)
    (additive : Bool) :
    (applyFilterForKeys st keys additive).1.selectableKeys = st.selectableKeys := by
  unfold applyFilterForKeys
  rcases hft : st.filterTarget with _ | tgt <;> simp [hft]

theorem applyFilter_filterTarget (st : VState) (keys : List Int)
    (additive : Bool) :
    (applyFilterForKeys st keys additive).1.filterTarget = st.filterTarget := by
  unfold applyFilterForKeys
  rcases hft : st.filterTarget with _ | tgt <;> simp [hft]

theorem applyFilter_selected_sub (st : VState) (keys : List Int)
    (additive : Bool) (A : Finset Int) (h1 : st.selectedKeys ⊆ A)
    (h2 : ∀ x ∈ keys, x ∈ A) :
    (applyFilterForKeys st keys additive).1.selectedKeys ⊆ A := by
  rcases hft : st.filterTarget with _ | tgt
  · rw [applyFilter_none _ _ _ hft]
    exact h1
  · rw [applyFilter_some_selectedKeys _ _ _ _ hft]
    refine Finset.union_subset ?_ ?_
    · split_ifs
      · exact h1
      · exact Finset.empty_subset A
    · intro x hx
      rw [List.mem_toFinset] at hx
      exact h2 x hx

theorem clearSelection_fst (st : VState) :
    (clearSelection st).1
      = { st with selectedKeys := (∅ : Finset Int), lastClickedKey := none } := by
  unfold clearSelection
  rcases hft : st.filterTarget with _ | tgt <;> simp [hft]

theorem multisetToSortedList_coe (m : Multiset Int) :
    ((multisetToSortedList m : List Int) : Multiset Int) = m := by
  refine Quot.inductionOn m (fun l => ?_)
  exact Quot.sound (List.perm_insertionSort _ l)

theorem mem_setToArray (s : Finset Int) (x : Int) :
    x ∈ setToArray s ↔ x ∈ s := by
  rw [Finset.mem_def, ← multisetToSortedList_coe s.val, Multiset.mem_coe]
  exact Iff.rfl

theorem setToArray_toFinset (s : Finset Int) : (setToArray s).toFinset = s := by
  ext x
  rw [List.mem_toFinset, mem_setToArray]

theorem handleClickDate_selectableKeys (st : VState) (key : Int)
    (c m s : Bool) :
    (handleClickDate st key c m s).1.selectableKeys = st.selectableKeys := by
  simp only [handleClickDate]
  split_ifs <;> simp [applyFilter_selectableKeys]

theorem handleClickDate_selected_subset (st : VState) (key : Int) (c m s : Bool)
    (hk : key ∈ st.selectableKeys)
    (hinv : st.selectedKeys ⊆ st.selectableKeys) :
    (handleClickDate st key c m s).1.selectedKeys ⊆ st.selectableKeys := by
  simp only [handleClickDate]
  by_cases hr : (st.selectionSettings.rangeSelect && s && st.lastClickedKey.isSome) = true
  · rw [if_pos hr]
    apply applyFilter_selected_sub _ _ _ _ hinv
    intro x hx
    exact walkKeys_subset _ _ _ x hx
  · rw [if_neg hr]
    by_cases hm : (st.selectionSettings.multiSelect && (c || m)) = true
    · rw [if_pos hm]
      by_cases hsel : key ∈ st.selectedKeys
      · rw [if_pos hsel]
        apply applyFilter_selected_sub
        · exact (Finset.erase_subset _ _).trans hinv
        · intro x hx
          rw [mem_setToArray] at hx
          exact hinv (Finset.mem_of_mem_erase hx)
      · rw [if_neg hsel]
        apply applyFilter_selected_sub
        · exact Finset.insert_subset hk hinv
        · intro x hx
          rw [mem_setToArray, Finset.mem_insert] at hx
          rcases hx with rfl | hx
          · exact hk
          · exact hinv hx
    · rw [if_neg hm]
      apply applyFilter_selected_sub
      · exact Finset.singleton_subset_iff.mpr hk
      · intro x hx
        rw [List.mem_singleton] at hx
        subst hx
        exact hk

theorem goodRun_cons (st : VState) (op : Op) (rest : List Op) :
    goodRun st (op :: rest) = true ↔
      (match op with
       | Op.click k _ _ _ => k ∈ st.selectableKeys
       | Op.clear => True
       | Op.load _ _ _ => False)
      ∧ goodRun (applyOp st op).1 rest = true := by
  cases op <;> simp [goodRun]

theorem runOps_cons (st : VState) (op : Op) (rest : List Op) :
    runOps st (op :: rest) = runOps (applyOp st op).1 rest := rfl

/-- C2, amended.  Selection containment holds on every state reachable by
clear operations and by clicks on keys that are selectable at the time of
the click, as long as no dataset rebuild occurs: loadData does not drop
stale selected keys, so a shrinking rebuild can break containment (see
the counterexample). -/
theorem selection_containment (st : VState) (ops : List Op)
    (hinv : st.selectedKeys ⊆ st.selectableKeys)
    (hops : goodRun st ops = true) :
    (runOps st ops).selectedKeys ⊆ (runOps st ops).selectableKeys := by
  induction ops generalizing st with
  | nil => exact hinv
  | cons op rest ih =>
    rw [runOps_cons]
    rw [goodRun_cons] at hops
    cases op with
    | click k c m s =>
      apply ih
      · have h1 : (applyOp st (Op.click k c m s)).1 = (handleClickDate st k c m s).1 := rfl
        rw [h1, handleClickDate_selectableKeys]
        exact handleClickDate_selected_subset st k c m s hops.1 hinv
      · exact hops.2
    | clear =>
      apply ih
      · have h1 : (applyOp st Op.clear).1 = (clearSelection st).1 := rfl
        rw [h1, clearSelection_fst]
        exact Finset.empty_subset _
      · exact hops.2
    | load ty tm dv =>
      exact absurd hops.1 (by simp)

def initialState (todayY todayM : Int) : VState :=
  { selectedKeys := (∅ : Finset Int)
    lastClickedKey := none
    settings := { startOfWeek := StartOfWeek.monday, showWeekNumbers := false,
                  otherMonthFade := true, showDOWHeader := false }
    selectionSettings := { multiSelect := true, rangeSelect := true,
                           stickySelection := true }
    dateRange := { respectDataRange := true, minDate := none, maxDate := none }
    identitiesByKey := []
    selectableKeys := (∅ : Finset Int)
    minDataKey := none
    maxDataKey := none
    filterTarget := none
    cursorYear := todayY
    cursorMonth := todayM }

def demoTarget : FilterTarget := { table := "T", column := "C" }

/-- C1, amended.  When a filter target exists, every filter request made
by applyFilterForKeys carries FilterAction.merge, even with additive set
to false (the source always passes merge and the visuals API has no
replace action).  The replacement semantics of additive set to false
applies only to the locally tracked selection, which becomes exactly the
set of passed keys, so the emitted value set, not the host action,
reflects replacement. -/
theorem C1_thm : ∀ (st : VState) (keys : List Int),
    ((applyFilterForKeys st keys false).2.map (fun call => call.action)
      = st.filterTarget.map (fun _ => FilterAction.merge))
    ∧ ((applyFilterForKeys st keys false).1.selectedKeys
      = if st.filterTarget.isSome then keys.toFinset else st.selectedKeys) := by
  intro st keys
  rcases hft : st.filterTarget with _ | tgt
  · rw [applyFilter_none _ _ _ hft]
    simp
  · refine ⟨?_, ?_⟩
    · unfold applyFilterForKeys
      rw [hft]
      simp
    · rw [applyFilter_some_selectedKeys _ _ _ _ hft]
      simp

def c1State : VState :=
  { initialState 2024 0 with
      filterTarget := some demoTarget
      selectableKeys := {dateUTC 2024 0 5} }

/-- C1, counterexample to the claim as stated: a call on the
filter-application path with additive set to false requests
FilterAction.merge, not a replace action. -/
theorem C1_cex :
    ((applyFilterForKeys c1State [dateUTC 2024 0 5] false).2.map
      (fun call => call.action)) = some FilterAction.merge := by decide

/-- C3, amended.  Rebuilding the availability index performs no
reconciliation: loadData leaves selectedKeys and lastClickedKey untouched
and makes no host call, so keys absent from the new availability remain
selected and no SelectionChanged event is emitted. -/
theorem C3_thm : ∀ (st : VState) (ty tm : Int) (dv : Option DataInput),
    (loadData st ty tm dv).selectedKeys = st.selectedKeys
    ∧ (loadData st ty tm dv).lastClickedKey = st.lastClickedKey
    ∧ (applyOp st (Op.load ty tm dv)).2 = [] := by
  intro st ty tm dv
  cases dv <;> exact ⟨rfl, rfl, rfl⟩

def c3Data1 : DataInput :=
  { queryName := some "T.C"
    values := [RawValue.vdate (dateUTC 2024 0 3), RawValue.vdate (dateUTC 2024 0 4),
               RawValue.vdate (dateUTC 2024 0 5)] }

def c3Data2 : DataInput :=
  { queryName := some "T.C"
    values := [RawValue.vdate (dateUTC 2024 0 3), RawValue.vdate (dateUTC 2024 0 5)] }

def c3Before : VState :=
  runOps (initialState 2024 0)
    [Op.load 2024 0 (some c3Data1),
     Op.click (dateUTC 2024 0 3) false false false,
     Op.click (dateUTC 2024 0 4) true false false,
     Op.click (dateUTC 2024 0 5) true false false]

/-- C3, counterexample to the claim as stated: with selection
2024-01-03, 2024-01-04, 2024-01-05 and a rebuild whose availability is
only 2024-01-03 and 2024-01-05, the selection stays all three keys
(2024-01-04 remains selected though no longer selectable) and the rebuild
emits nothing. -/
theorem C3_cex :
    setToArray c3Before.selectedKeys
      = [dateUTC 2024 0 3, dateUTC 2024 0 4, dateUTC 2024 0 5]
    ∧ setToArray (loadData c3Before 2024 0 (some c3Data2)).selectableKeys
      = [dateUTC 2024 0 3, dateUTC 2024 0 5]
    ∧ setToArray (loadData c3Before 2024 0 (some c3Data2)).selectedKeys
      = [dateUTC 2024 0 3, dateUTC 2024 0 4, dateUTC 2024 0 5]
    ∧ (dateUTC 2024 0 4) ∈ (loadData c3Before 2024 0 (some c3Data2)).selectedKeys
    ∧ (dateUTC 2024 0 4) ∉ (loadData c3Before 2024 0 (some c3Data2)).selectableKeys
    ∧ (applyOp c3Before (Op.load 2024 0 (some c3Data2))).2 = [] := by decide

def c2Final : VState :=
  runOps (initialState 2024 0)
    [Op.load 2024 0 (some c3Data1),
     Op.click (dateUTC 2024 0 3) false false false,
     Op.load 2024 0 (some (DataInput.mk (some "T.C") [RawValue.vdate (dateUTC 2024 0 5)]))]

/-- C2, counterexample to the claim as stated: after a click selects an
available key and a dataset rebuild removes it from availability, the key
is still in selectedKeys but not in selectableKeys. -/
theorem C2_cex :
    (dateUTC 2024 0 3) ∈ c2Final.selectedKeys
    ∧ (dateUTC 2024 0 3) ∉ c2Final.selectableKeys := by decide

def c2WitnessState : VState :=
  { initialState 2024 0 with
      selectableKeys := {dateUTC 2024 0 3, dateUTC 2024 0 4}
      filterTarget := some demoTarget }

/-- C2, witness for the amended containment theorem at a concrete state
and operation sequence. -/
theorem C2_witness :
    (c2WitnessState.selectedKeys ⊆ c2WitnessState.selectableKeys
      ∧ goodRun c2WitnessState
          [Op.click (dateUTC 2024 0 3) false false false,
           Op.click (dateUTC 2024 0 4) true false false] = true)
    ∧ (runOps c2WitnessState
        [Op.click (dateUTC 2024 0 3) false false false,
         Op.click (dateUTC 2024 0 4) true false false]).selectedKeys ⊆
      (runOps c2WitnessState
        [Op.click (dateUTC 2024 0 3) false false false,
         Op.click (dateUTC 2024 0 4) true false false]).selectableKeys :=
  ⟨⟨by decide, by decide⟩,
    selection_containment c2WitnessState _ (by decide) (by decide)⟩

theorem applyFilter_selected_generic (st : VState) (keys : List Int)
    (additive : Bool) :
    (applyFilterForKeys st keys additive).1.selectedKeys =
      if st.filterTarget.isSome
      then (if additive then st.selectedKeys else (∅ : Finset Int)) ∪ keys.toFinset
      else st.selectedKeys := by
  rcases hft : st.filterTarget with _ | tgt
  · rw [applyFilter_none _ _ _ hft]
    simp
  · rw [applyFilter_some_selectedKeys _ _ _ _ hft]
    simp

theorem handleClickDate_single_branch (st : VState) (key : Int) (c m s : Bool)
    (hr : (st.selectionSettings.rangeSelect && s && st.lastClickedKey.isSome) = false)
    (hm : (st.selectionSettings.multiSelect && (c || m)) = false) :
    handleClickDate st key c m s =
      (let st1 := { st with selectedKeys := ({key} : Finset Int) }
       let r := applyFilterForKeys st1 [key] false
       ({ r.1 with lastClickedKey := some key }, r.2.toList)) := by
  simp only [handleClickDate, hr, hm, Bool.false_eq_true, if_false]

-- C4 amended: a plain click on ANY key, available or not, selects it.
/-- C4, amended.  handleClickDate performs no availability check: a
plain click on any key, available or not, replaces the selection with
that key and records it as the anchor.  Non-selectable cells are
unreachable only because the renderer attaches the click handler solely
to cells whose key is in the availability index. -/
theorem C4_thm : ∀ (st : VState) (key : Int),
    (handleClickDate st key false false false).1.selectedKeys = {key}
    ∧ (handleClickDate st key false false false).1.lastClickedKey = some key := by
  intro st key
  rw [handleClickDate_single_branch st key false false false (by simp) (by simp)]
  refine ⟨?_, rfl⟩
  rw [applyFilter_selected_generic]
  split_ifs <;> simp

def c4State : VState :=
  { initialState 2024 0 with
      selectableKeys := {dateUTC 2024 0 5}
      filterTarget := some demoTarget }

/-- C4, counterexample to the claim as stated: a click on a key outside
the availability index is not a no-op; it selects the key, moves the
anchor, and emits a filter call. -/
theorem C4_cex :
    (dateUTC 2024 0 7) ∉ c4State.selectableKeys
    ∧ (dateUTC 2024 0 7) ∈
        (handleClickDate c4State (dateUTC 2024 0 7) false false false).1.selectedKeys
    ∧ (handleClickDate c4State (dateUTC 2024 0 7) false false false).1.lastClickedKey
        = some (dateUTC 2024 0 7)
    ∧ (handleClickDate c4State (dateUTC 2024 0 7) false false false).2 ≠ [] := by
  decide

-- C5 amended
/-- C5, amended.  With filterTarget none no host call is made, and
single and multi clicks still track selection locally exactly as with a
target present; but a range click does not add the walked keys to
selectedKeys, because that addition happens inside the suppressed
filter-application path, and only lastClickedKey is updated. -/
theorem C5_thm : ∀ (st : VState) (key : Int) (ctrl mta shift : Bool),
    st.filterTarget = none →
    (handleClickDate st key ctrl mta shift).2 = []
    ∧ (handleClickDate st key ctrl mta shift).1.lastClickedKey = some key
    ∧ ((st.selectionSettings.rangeSelect && shift && st.lastClickedKey.isSome) = true →
        (handleClickDate st key ctrl mta shift).1.selectedKeys = st.selectedKeys)
    ∧ ((st.selectionSettings.rangeSelect && shift && st.lastClickedKey.isSome) = false →
        (st.selectionSettings.multiSelect && (ctrl || mta)) = true →
        (handleClickDate st key ctrl mta shift).1.selectedKeys
          = (if key ∈ st.selectedKeys then st.selectedKeys.erase key
             else insert key st.selectedKeys))
    ∧ ((st.selectionSettings.rangeSelect && shift && st.lastClickedKey.isSome) = false →
        (st.selectionSettings.multiSelect && (ctrl || mta)) = false →
        (handleClickDate st key ctrl mta shift).1.selectedKeys = {key}) := by
  intro st key ctrl mta shift hft
  simp only [handleClickDate]
  by_cases hr : (st.selectionSettings.rangeSelect && shift && st.lastClickedKey.isSome) = true
  · rw [if_pos hr]
    rw [applyFilter_none _ _ _ hft]
    refine ⟨rfl, rfl, fun _ => rfl, fun hcontra _ => ?_, fun hcontra _ => ?_⟩
    · rw [hr] at hcontra
      cases hcontra
    · rw [hr] at hcontra
      cases hcontra
  · rw [if_neg hr]
    have hr2 : (st.selectionSettings.rangeSelect && shift && st.lastClickedKey.isSome) = false := by
      simpa using hr
    by_cases hm : (st.selectionSettings.multiSelect && (ctrl || mta)) = true
    · rw [if_pos hm]
      by_cases hsel : key ∈ st.selectedKeys
      · rw [if_pos hsel]
        rw [applyFilter_none _ _ _ (by simpa using hft)]
        refine ⟨rfl, rfl, ?_, fun _ _ => by rw [if_pos hsel], fun _ hcontra => ?_⟩
        · intro hcontra
          rw [hr2] at hcontra
          cases hcontra
        · rw [hm] at hcontra
          cases hcontra
      · rw [if_neg hsel]
        rw [applyFilter_none _ _ _ (by simpa using hft)]
        refine ⟨rfl, rfl, ?_, fun _ _ => by rw [if_neg hsel], fun _ hcontra => ?_⟩
        · intro hcontra
          rw [hr2] at hcontra
          cases hcontra
        · rw [hm] at hcontra
          cases hcontra
    · rw [if_neg hm]
      have hm2 : (st.selectionSettings.multiSelect && (ctrl || mta)) = false := by
        simpa using hm
      rw [applyFilter_none _ _ _ (by simpa using hft)]
      refine ⟨rfl, rfl, ?_, ?_, fun _ _ => rfl⟩
      · intro hcontra
        rw [hr2] at hcontra
        cases hcontra
      · intro _ hcontra
        rw [hm2] at hcontra
        cases hcontra

-- C5 witness and counterexample
def c5NoTargetState : VState :=
  { initialState 2024 0 with
      selectableKeys := {dateUTC 2024 0 1, dateUTC 2024 0 3}
      lastClickedKey := some (dateUTC 2024 0 1) }

/-- C5, witness: the amended theorem applied to a concrete state with
no filter target and a ctrl-click. -/
theorem C5_witness :
    c5NoTargetState.filterTarget = none
    ∧ (handleClickDate c5NoTargetState (dateUTC 2024 0 3) true false false).2 = []
    ∧ (handleClickDate c5NoTargetState (dateUTC 2024 0 3) true false false).1.selectedKeys
        = insert (dateUTC 2024 0 3) c5NoTargetState.selectedKeys := by
  refine ⟨rfl, ?_, ?_⟩
  · exact (C5_thm c5NoTargetState (dateUTC 2024 0 3) true false false rfl).1
  · have h := (C5_thm c5NoTargetState (dateUTC 2024 0 3) true false false rfl).2.2.2.1
      (by decide) (by decide)
    rw [h]
    decide

def c5TargetState : VState :=
  { c5NoTargetState with filterTarget := some demoTarget }

/-- C5, counterexample to the claim as stated: the same shift-click on
an available key adds the walked range to selectedKeys when a filter
target is present, but leaves the selection empty when filterTarget is
none, so selection state is not tracked the same. -/
theorem C5_cex :
    c5NoTargetState.filterTarget = none
    ∧ c5TargetState = { c5NoTargetState with filterTarget := some demoTarget }
    ∧ setToArray
        (handleClickDate c5NoTargetState (dateUTC 2024 0 3) false false true).1.selectedKeys
      = []
    ∧ setToArray
        (handleClickDate c5TargetState (dateUTC 2024 0 3) false false true).1.selectedKeys
      = [dateUTC 2024 0 1, dateUTC 2024 0 3] := by
  refine ⟨rfl, rfl, ?_, ?_⟩ <;> decide

-- C6 amended
/-- C6, amended.  When a filter target is present, a shift-click with
rangeSelect enabled and an anchor p adds to selectedKeys exactly the
availability members of the closed day interval between p and the clicked
key (removing nothing) and moves the anchor to the clicked key.  The
divisibility hypotheses say that the keys are UTC-midnight day keys, as
every key produced by the program is; the lower-bound hypotheses restrict
the endpoints to dates at or after year 100, keeping the walk clear of
the two-digit-year rule inside atUTC (inside years 0..99 the cursor
re-entry of Date.UTC jumps to the 1900s and the interval is not walked as
stated).  A filter target is required because the addition happens inside
applyFilterForKeys, which returns early when the target is none (see the
counterexample). -/
theorem C6_thm (st : VState) (key p : Int) (tgt : FilterTarget) (ctrl mta : Bool)
    (hp : st.lastClickedKey = some p) (ht : st.filterTarget = some tgt)
    (hrs : st.selectionSettings.rangeSelect = true)
    (hkd : dayMs ∣ key) (hpd : dayMs ∣ p)
    (hkL : jan1Days 100 * dayMs ≤ key) (hpL : jan1Days 100 * dayMs ≤ p)
    (hav : ∀ x ∈ st.selectableKeys, dayMs ∣ x) :
    (handleClickDate st key ctrl mta true).1.selectedKeys
      = st.selectedKeys ∪
        st.selectableKeys.filter
          (fun x => (if key < p then key else p) ≤ x
            ∧ x ≤ (if key < p then p else key))
    ∧ st.selectedKeys ⊆ (handleClickDate st key ctrl mta true).1.selectedKeys
    ∧ (handleClickDate st key ctrl mta true).1.lastClickedKey = some key := by
  have hmain :
      (handleClickDate st key ctrl mta true).1.selectedKeys
        = st.selectedKeys ∪
          st.selectableKeys.filter
            (fun x => (if key < p then key else p) ≤ x
              ∧ x ≤ (if key < p then p else key)) := by
    simp only [handleClickDate, hrs, hp, Option.isSome_some, Bool.true_and,
      Bool.and_true, Bool.and_self, Option.getD_some, if_true]
    rw [applyFilter_selected_generic, ht]
    simp only [Option.isSome_some, if_true]
    congr 1
    ext x
    rw [List.mem_toFinset,
      mem_walkKeys _ _ _ _ (by split_ifs <;> assumption)
        (by split_ifs <;> assumption) (by split_ifs <;> assumption)
        (by split_ifs <;> assumption),
      Finset.mem_filter]
    constructor
    · rintro ⟨h1, h2, h3, _⟩
      exact ⟨h1, h2, h3⟩
    · rintro ⟨h1, h2, h3⟩
      exact ⟨h1, h2, h3, hav x h1⟩
  refine ⟨hmain, ?_, ?_⟩
  · rw [hmain]
    exact Finset.subset_union_left
  · simp only [handleClickDate, hrs, hp, Option.isSome_some, Bool.true_and,
      Bool.and_true, Bool.and_self, Option.getD_some, if_true]

def c6State : VState :=
  { initialState 2024 0 with
      selectableKeys := {dateUTC 2024 0 1, dateUTC 2024 0 3}
      selectedKeys := {dateUTC 2024 0 10}
      lastClickedKey := some (dateUTC 2024 0 1)
      filterTarget := some demoTarget }

/-- C6, witness: the amended range-selection theorem applied at a
concrete state, anchor 2024-01-01, click on 2024-01-03, availability
containing both endpoints. -/
theorem C6_witness :
    (c6State.lastClickedKey = some (dateUTC 2024 0 1)
      ∧ c6State.filterTarget = some demoTarget
      ∧ c6State.selectionSettings.rangeSelect = true
      ∧ dayMs ∣ dateUTC 2024 0 3
      ∧ dayMs ∣ dateUTC 2024 0 1
      ∧ jan1Days 100 * dayMs ≤ dateUTC 2024 0 3
      ∧ jan1Days 100 * dayMs ≤ dateUTC 2024 0 1
      ∧ (∀ x ∈ c6State.selectableKeys, dayMs ∣ x))
    ∧ (handleClickDate c6State (dateUTC 2024 0 3) false false true).1.selectedKeys
        = c6State.selectedKeys ∪
          c6State.selectableKeys.filter
            (fun x =>
              (if dateUTC 2024 0 3 < dateUTC 2024 0 1
               then dateUTC 2024 0 3 else dateUTC 2024 0 1) ≤ x
              ∧ x ≤ (if dateUTC 2024 0 3 < dateUTC 2024 0 1
                     then dateUTC 2024 0 1 else dateUTC 2024 0 3)) :=
  ⟨⟨rfl, rfl, rfl, by decide, by decide, by decide, by decide, by decide⟩,
    (C6_thm c6State (dateUTC 2024 0 3) (dateUTC 2024 0 1) demoTarget false false
      rfl rfl rfl (by decide) (by decide) (by decide) (by decide) (by decide)).1⟩

def c6NoTargetState : VState :=
  { initialState 2024 0 with
      selectableKeys := {dateUTC 2024 0 1, dateUTC 2024 0 3}
      lastClickedKey := some (dateUTC 2024 0 1) }

/-- C6, counterexample to the claim as stated: with no filter target, a
shift-click on the available key 2024-01-03 with anchor 2024-01-01 adds
nothing to selectedKeys, contradicting the unconditional claim that the
walked interval is added. -/
theorem C6_cex :
    c6NoTargetState.selectionSettings.rangeSelect = true
    ∧ c6NoTargetState.lastClickedKey = some (dateUTC 2024 0 1)
    ∧ (dateUTC 2024 0 3) ∈ c6NoTargetState.selectableKeys
    ∧ (dateUTC 2024 0 3) ∉
        (handleClickDate c6NoTargetState (dateUTC 2024 0 3) false false true).1.selectedKeys
    ∧ setToArray
        (handleClickDate c6NoTargetState (dateUTC 2024 0 3) false false true).1.selectedKeys
      = [] := by decide

-- C8
/-- C8, confirmed.  clearSelection empties selectedKeys, resets
lastClickedKey to none, and when a filter target exists makes exactly one
host call with a null filter payload and FilterAction.remove; every call
it ever makes is a removal, never an In filter with an empty value
list. -/
theorem C8_thm : ∀ st : VState,
    (clearSelection st).1.selectedKeys = (∅ : Finset Int)
    ∧ (clearSelection st).1.lastClickedKey = none
    ∧ ((clearSelection st).2
        = if st.filterTarget.isSome
          then some { filter := none, action := FilterAction.remove }
          else none)
    ∧ (∀ call ∈ (clearSelection st).2,
        call.action = FilterAction.remove ∧ call.filter = none) := by
  intro st
  unfold clearSelection
  rcases hft : st.filterTarget with _ | tgt
  · refine ⟨rfl, rfl, by simp, ?_⟩
    intro call hcall
    cases hcall
  · refine ⟨rfl, rfl, by simp, ?_⟩
    intro call hcall
    rw [Option.mem_def, Option.some.injEq] at hcall
    rw [← hcall]
    exact ⟨rfl, rfl⟩

-- C10
/-- C10, confirmed.  The configured date range never influences
selectability: states differing only in respectDataRange, minDate or
maxDate load identical selectableKeys from the same dataset and render
identical day grids, and a day cell is enabled (clickable) exactly when
its key is in selectableKeys. -/
theorem C10_thm : ∀ (st : VState) (r1 r2 : DateRangeSettings) (ty tm : Int)
    (dv : Option DataInput),
    (loadData { st with dateRange := r1 } ty tm dv).selectableKeys
      = (loadData { st with dateRange := r2 } ty tm dv).selectableKeys
    ∧ dayGridCells { st with dateRange := r1 }
      = dayGridCells { st with dateRange := r2 }
    ∧ ((dayGridCells st).all (fun cell =>
        cell.isDataDate == decide (cell.key ∈ st.selectableKeys))) = true := by
  intro st r1 r2 ty tm dv
  refine ⟨?_, rfl, ?_⟩
  · cases dv <;> rfl
  · rw [List.all_eq_true]
    intro cell hcell
    simp only [dayGridCells, List.mem_map] at hcell
    obtain ⟨i, _, rfl⟩ := hcell
    simp

-- C7
/-- Modelled from the spec wording (spec 4.6): a string consists of
optional whitespace, four digits, a hyphen, two digits, a hyphen, two
digits, and optional trailing whitespace. -/
def isoShape (s : String) : Prop :=
  ∃ w1 ys ms ds w2 : List Char,
    s.toList = w1 ++ ys ++ ['-'] ++ ms ++ ['-'] ++ ds ++ w2
    ∧ (∀ c ∈ w1, isJsSpace c = true) ∧ (∀ c ∈ w2, isJsSpace c = true)
    ∧ ys.length = 4 ∧ ms.length = 2 ∧ ds.length = 2
    ∧ (∀ c ∈ ys, isDigitChar c = true) ∧ (∀ c ∈ ms, isDigitChar c = true)
    ∧ (∀ c ∈ ds, isDigitChar c = true)

theorem digit_not_space (c : Char) (h : isDigitChar c = true) :
    isJsSpace c = false := by
  simp only [isDigitChar, Bool.and_eq_true, decide_eq_true_eq] at h
  cases hs : isJsSpace c
  · rfl
  · exfalso
    simp only [isJsSpace, Bool.or_eq_true, Bool.and_eq_true,
      decide_eq_true_eq] at hs
    omega

theorem dropWhile_append_spaces (w l : List Char)
    (hw : ∀ c ∈ w, isJsSpace c = true) :
    (w ++ l).dropWhile isJsSpace = l.dropWhile isJsSpace := by
  induction w with
  | nil => rfl
  | cons a w ih =>
    rw [List.cons_append, List.dropWhile_cons, hw a (List.mem_cons_self a w)]
    simp only [if_true]
    exact ih (fun c hc => hw c (List.mem_cons_of_mem a hc))

theorem dropWhile_cons_false (c : Char) (l : List Char)
    (h : isJsSpace c = false) :
    (c :: l).dropWhile isJsSpace = c :: l := by
  rw [List.dropWhile_cons, h]
  simp

theorem mem_takeWhile_space (l : List Char) :
    ∀ c ∈ l.takeWhile isJsSpace, isJsSpace c = true := by
  induction l with
  | nil => intro c hc; cases hc
  | cons a l ih =>
    intro c hc
    rw [List.takeWhile_cons] at hc
    by_cases ha : isJsSpace a = true
    · rw [ha] at hc
      simp only [if_true] at hc
      rcases List.mem_cons.mp hc with rfl | hc
      · exact ha
      · exact ih c hc
    · rw [Bool.not_eq_true] at ha
      rw [ha] at hc
      simp at hc

theorem matchISO_cons (y1 y2 y3 y4 s1 m1 m2 s2 d1 d2 : Char)
    (rest cs : List Char)
    (h : cs.dropWhile isJsSpace
      = y1 :: y2 :: y3 :: y4 :: s1 :: m1 :: m2 :: s2 :: d1 :: d2 :: rest) :
    matchISO cs
      = if (s1 == '-') && (s2 == '-')
            && ([y1, y2, y3, y4, m1, m2, d1, d2].all isDigitChar)
            && rest.all isJsSpace then
          some (digitsToNat [y1, y2, y3, y4], digitsToNat [m1, m2],
            digitsToNat [d1, d2])
        else none := by
  unfold matchISO
  rw [h]

theorem digitsToNat_le4 (a b c d : Char)
    (ha : isDigitChar a = true) (hb : isDigitChar b = true)
    (hc : isDigitChar c = true) (hd : isDigitChar d = true) :
    digitsToNat [a, b, c, d] ≤ 9999 := by
  simp only [isDigitChar, Bool.and_eq_true, decide_eq_true_eq] at ha hb hc hd
  simp only [digitsToNat, List.foldl_cons, List.foldl_nil]
  omega

theorem digitsToNat_le2 (a b : Char)
    (ha : isDigitChar a = true) (hb : isDigitChar b = true) :
    digitsToNat [a, b] ≤ 99 := by
  simp only [isDigitChar, Bool.and_eq_true, decide_eq_true_eq] at ha hb
  simp only [digitsToNat, List.foldl_cons, List.foldl_nil]
  omega

set_option maxHeartbeats 1000000 in
/-- Every Date.UTC timestamp built from a 0..9999 year, a month index
drawn from two digits, and a two-digit day stays far inside the
ECMAScript time-value range, so the isNaN guard of parseISODate never
fires on a matched string. -/
theorem dateUTC_small (y mi d : Int)
    (hy : 0 ≤ y ∧ y ≤ 9999) (hmi : -1 ≤ mi ∧ mi ≤ 98)
    (hd : 0 ≤ d ∧ d ≤ 99) :
    (dateUTC y mi d).natAbs ≤ 8640000000000000 := by
  unfold dateUTC jsUtcYear
  obtain ⟨yy, era, yoe, hyy, hera, hyoe, hdfc⟩ :=
    dfc_spec ((if 0 ≤ y ∧ y ≤ 99 then 1900 + y else y) + mi / 12)
      (mi % 12 + 1) d
  rw [hdfc]
  unfold dayMs
  split_ifs at hyy ⊢ <;> omega

theorem parse_of_shape (s : String) (h : isoShape s) :
    (parseISODate (some s)).isSome = true := by
  obtain ⟨w1, ys, ms, ds, w2, heq, hw1, hw2, hy4, hm2, hd2, hyd, hmd, hdd⟩ := h
  rcases ys with _ | ⟨a1, _ | ⟨a2, _ | ⟨a3, _ | ⟨a4, _ | ⟨a5, ys⟩⟩⟩⟩⟩ <;>
    simp at hy4
  rcases ms with _ | ⟨b1, _ | ⟨b2, _ | ⟨b3, ms⟩⟩⟩ <;> simp at hm2
  rcases ds with _ | ⟨c1, _ | ⟨c2, _ | ⟨c3, ds⟩⟩⟩ <;> simp at hd2
  have ha1 : isDigitChar a1 = true := hyd a1 (by simp)
  have ha2 : isDigitChar a2 = true := hyd a2 (by simp)
  have ha3 : isDigitChar a3 = true := hyd a3 (by simp)
  have ha4 : isDigitChar a4 = true := hyd a4 (by simp)
  have hb1 : isDigitChar b1 = true := hmd b1 (by simp)
  have hb2 : isDigitChar b2 = true := hmd b2 (by simp)
  have hc1 : isDigitChar c1 = true := hdd c1 (by simp)
  have hc2 : isDigitChar c2 = true := hdd c2 (by simp)
  have heq2 : s.toList
      = w1 ++ (a1 :: a2 :: a3 :: a4 :: '-' :: b1 :: b2 :: '-' :: c1 :: c2 :: w2) := by
    rw [heq]
    simp
  have hdrop : s.toList.dropWhile isJsSpace
      = a1 :: a2 :: a3 :: a4 :: '-' :: b1 :: b2 :: '-' :: c1 :: c2 :: w2 := by
    rw [heq2, dropWhile_append_spaces w1 _ hw1,
      dropWhile_cons_false a1 _ (digit_not_space a1 ha1)]
  have hguard : ((('-' : Char) == '-') && (('-' : Char) == '-')
      && ([a1, a2, a3, a4, b1, b2, c1, c2].all isDigitChar)
      && w2.all isJsSpace) = true := by
    simp only [beq_self_eq_true, Bool.true_and, List.all_cons, List.all_nil,
      ha1, ha2, ha3, ha4, hb1, hb2, hc1, hc2, Bool.and_true, Bool.true_and,
      Bool.and_eq_true]
    exact List.all_eq_true.mpr hw2
  have hmatch : matchISO s.toList
      = some (digitsToNat [a1, a2, a3, a4], digitsToNat [b1, b2],
          digitsToNat [c1, c2]) := by
    rw [matchISO_cons a1 a2 a3 a4 '-' b1 b2 '-' c1 c2 w2 s.toList hdrop,
      if_pos hguard]
  have hne : ¬ s = "" := by
    intro h0
    rw [h0] at hdrop
    exact List.noConfusion hdrop
  have hrange : (dateUTC ((digitsToNat [a1, a2, a3, a4] : Nat) : Int)
      (((digitsToNat [b1, b2] : Nat) : Int) - 1)
      ((digitsToNat [c1, c2] : Nat) : Int)).natAbs ≤ 8640000000000000 := by
    apply dateUTC_small
    · have := digitsToNat_le4 a1 a2 a3 a4 ha1 ha2 ha3 ha4
      omega
    · have := digitsToNat_le2 b1 b2 hb1 hb2
      omega
    · have := digitsToNat_le2 c1 c2 hc1 hc2
      omega
  simp only [parseISODate]
  rw [if_neg hne, hmatch]
  show (if (dateUTC ((digitsToNat [a1, a2, a3, a4] : Nat) : Int)
      (((digitsToNat [b1, b2] : Nat) : Int) - 1)
      ((digitsToNat [c1, c2] : Nat) : Int)).natAbs ≤ 8640000000000000
    then some (dateUTC ((digitsToNat [a1, a2, a3, a4] : Nat) : Int)
      (((digitsToNat [b1, b2] : Nat) : Int) - 1)
      ((digitsToNat [c1, c2] : Nat) : Int)) else none).isSome = true
  rw [if_pos hrange]
  rfl

theorem shape_of_parse (s : String)
    (h : (parseISODate (some s)).isSome = true) : isoShape s := by
  simp only [parseISODate] at h
  by_cases hs0 : s = ""
  · rw [if_pos hs0] at h
    simp at h
  rw [if_neg hs0] at h
  rcases hm : matchISO s.toList with _ | v
  · rw [hm] at h
    simp at h
  unfold matchISO at hm
  split at hm
  swap
  · exact Option.noConfusion hm
  next y1 y2 y3 y4 s1 m1 m2 s2 d1 d2 rest heq =>
    split_ifs at hm with hgd
    simp only [Bool.and_eq_true, beq_iff_eq] at hgd
    obtain ⟨⟨⟨hs1, hs2⟩, hdig⟩, hsp⟩ := hgd
    subst hs1
    subst hs2
    have hall : ∀ x ∈ [y1, y2, y3, y4, m1, m2, d1, d2], isDigitChar x = true :=
      List.all_eq_true.mp hdig
    have hsplit : s.toList.takeWhile isJsSpace ++ s.toList.dropWhile isJsSpace
        = s.toList := by
      rw [List.takeWhile_append_dropWhile]
    refine ⟨s.toList.takeWhile isJsSpace, [y1, y2, y3, y4], [m1, m2],
      [d1, d2], rest, ?_, mem_takeWhile_space s.toList,
      List.all_eq_true.mp hsp, rfl, rfl, rfl, ?_, ?_, ?_⟩
    · conv_lhs => rw [← hsplit]
      rw [heq]
      simp
    · intro ch hc
      apply hall
      simp only [List.mem_cons, List.not_mem_nil, or_false] at hc ⊢
      tauto
    · intro ch hc
      apply hall
      simp only [List.mem_cons, List.not_mem_nil, or_false] at hc ⊢
      tauto
    · intro ch hc
      apply hall
      simp only [List.mem_cons, List.not_mem_nil, or_false] at hc ⊢
      tauto

/-- C7, counterexample to the claim as stated: the invalid calendar
date 2023-02-30 does not fail to parse; it parses to the rolled-over date
2023-03-02. -/
theorem C7_cex :
    parseISODate (some "2023-02-30") = some (dateUTC 2023 2 2)
    ∧ parseISODate (some "2023-02-30") ≠ none := by
  refine ⟨by decide, by decide⟩

/-- C7, amended.  parseISODate accepts a string if and only if it has the
shape optional whitespace, four digits, hyphen, two digits, hyphen, two
digits, optional whitespace (isoShape, stated for every string); invalid
calendar components are rolled over by the UTC date constructor rather
than rejected, and surrounding whitespace is tolerated.  The concrete
conjuncts exercise day rollover (2023-02-30 parses as 2023-03-02),
month-00 rollover into the previous year, a valid leap day, and the
rejected shapes (single-digit month, time suffix, empty or missing
string). -/
theorem C7_thm :
    (∀ s : String, (parseISODate (some s)).isSome = true ↔ isoShape s)
    ∧ parseISODate (some "2023-02-30") = some (dateUTC 2023 1 30)
    ∧ dateUTC 2023 1 30 = dateUTC 2023 2 2
    ∧ parseISODate (some "2023-00-15") = some (dateUTC 2022 11 15)
    ∧ parseISODate (some "2024-02-29") = some (dateUTC 2024 1 29)
    ∧ parseISODate (some "2023-2-30") = none
    ∧ parseISODate (some "2023-02-28T00:00:00") = none
    ∧ parseISODate (some " 2023-02-28 ") = some (dateUTC 2023 1 28)
    ∧ parseISODate (some "") = none
    ∧ parseISODate none = none := by
  refine ⟨fun s => ⟨shape_of_parse s, parse_of_shape s⟩, by decide, by decide,
    by decide, by decide, by decide, by decide, by decide, by decide, rfl⟩

-- C9 amended: outside the two-digit-year range the source agrees with
-- the ISO-8601 definition.
/-- C9, amended.  getISOWeek agrees with the ISO-8601 week definition
(the Thursday of the week of the key determines the week year; week 1 is
the week containing the first Thursday of that year) for every day key
whose own calendar year and week-Thursday calendar year both lie outside
0..99.  Inside that range the ECMAScript two-digit-year rule, applied by
Date.UTC both in the atUTC normalisation of the input and in the year
start, corrupts the result (see the counterexample).  In particular
January 1, 2023 yields week 52, not week 1 (see the witness). -/
theorem C9_thm (n : Int)
    (hq0 : yearOfDays n < 0 ∨ 100 ≤ yearOfDays n)
    (hq : yearOfDays (weekThursday n) < 0 ∨ 100 ≤ yearOfDays (weekThursday n)) :
    getISOWeek (n * dayMs) = isoWeekSpec n := by
  have hepoch : epochDays (n * dayMs) = n := by
    unfold epochDays dayMs
    omega
  have hq0b : getUTCFullYear (n * dayMs) < 0 ∨ 100 ≤ getUTCFullYear (n * dayMs) := by
    unfold yearOfDays at hq0
    unfold getUTCFullYear
    rw [hepoch]
    exact hq0
  have hat : atUTC (n * dayMs) = n * dayMs := by
    rw [atUTC_floor (n * dayMs) hq0b]
    unfold dayMs
    omega
  have hday : getUTCDay (n * dayMs) = (n + 4) % 7 := by
    unfold getUTCDay epochDays dayMs
    omega
  have hiso : isoWeekSpec n
      = 1 + (weekThursday n
          - nextThursday (jan1Days (yearOfDays (weekThursday n)))) / 7 := rfl
  have hth := weekThursday_eq n
  simp only [getISOWeek, hat, hday, hiso]
  set d : Int := if (n + 4) % 7 = 0 then 7 else (n + 4) % 7 with hd
  have hms : n * dayMs + (4 - d) * dayMs = (n + 4 - d) * dayMs := by ring
  rw [hms]
  have hyear : getUTCFullYear ((n + 4 - d) * dayMs) = yearOfDays (n + 4 - d) := by
    unfold getUTCFullYear yearOfDays epochDays
    have h1 : (n + 4 - d) * dayMs / dayMs = n + 4 - d := by
      unfold dayMs
      omega
    rw [h1]
  rw [hyear, ← hth]
  have hqy : jsUtcYear (yearOfDays (weekThursday n)) = yearOfDays (weekThursday n) := by
    unfold jsUtcYear
    rcases hq with h | h
    · rw [if_neg]
      omega
    · rw [if_neg]
      omega
  have hys : dateUTC (yearOfDays (weekThursday n)) 0 1
      = jan1Days (yearOfDays (weekThursday n)) * dayMs := by
    simp only [dateUTC, jan1Days, hqy]
    norm_num
  rw [hys]
  have hdow : (weekThursday n + 4) % 7 = 4 := by
    rw [hth]
    by_cases h0 : (n + 4) % 7 = 0
    · rw [hd, if_pos h0]
      omega
    · rw [hd, if_neg h0]
      omega
  have hdiff : (weekThursday n * dayMs
        - jan1Days (yearOfDays (weekThursday n)) * dayMs) / dayMs
      = weekThursday n - jan1Days (yearOfDays (weekThursday n)) := by
    unfold dayMs
    omega
  rw [hdiff]
  exact ceil7_week (weekThursday n) (jan1Days (yearOfDays (weekThursday n))) hdow

/-- C9, witness: the amended theorem applied at January 1, 2023, which
indeed computes ISO week 52 and not week 1. -/
theorem C9_witness :
    ((yearOfDays (epochDays (dateUTC 2023 0 1)) < 0
      ∨ 100 ≤ yearOfDays (epochDays (dateUTC 2023 0 1)))
      ∧ (yearOfDays (weekThursday (epochDays (dateUTC 2023 0 1))) < 0
        ∨ 100 ≤ yearOfDays (weekThursday (epochDays (dateUTC 2023 0 1)))))
    ∧ getISOWeek (epochDays (dateUTC 2023 0 1) * dayMs)
        = isoWeekSpec (epochDays (dateUTC 2023 0 1))
    ∧ epochDays (dateUTC 2023 0 1) * dayMs = dateUTC 2023 0 1
    ∧ getISOWeek (dateUTC 2023 0 1) = 52
    ∧ getISOWeek (dateUTC 2023 0 1) ≠ 1 :=
  ⟨⟨by decide, by decide⟩, C9_thm _ (by decide) (by decide), by decide,
    by decide, by decide⟩

/-- C9, counterexample to the unrestricted claim: for January 1 of year
100, whose week Thursday lies in year 99, the source computes week -99085
while the ISO-8601 definition gives week 53, because Date.UTC(99, 0, 1)
denotes 1999 under the two-digit-year rule. -/
theorem C9_cex :
    getISOWeek (dateUTC 100 0 1) = -99085
    ∧ isoWeekSpec (epochDays (dateUTC 100 0 1)) = 53
    ∧ epochDays (dateUTC 100 0 1) * dayMs = dateUTC 100 0 1
    ∧ getISOWeek (dateUTC 100 0 1) ≠ isoWeekSpec (epochDays (dateUTC 100 0 1)) := by
  refine ⟨by decide, by decide, by decide, by decide⟩
